import Mathlib

/- Shallow embedding of `vcs_number.py`: a TeamCity build-step script that sets
a configuration's build number to the maximum of its own vcs number and the
vcs numbers reported by its dependency configurations through `vcsnumber*.txt`
artifact files.

Modelling conventions:
* Python strings are Lean `String`s; character-level logic works on `List Char`.
* `os.environ` is an explicit `Env` record holding the two variables the script
  reads; the working directory is an explicit association list `Dir` of file
  names to file contents, listed in enumeration order.
* Python exceptions are modelled with `Except Err`.  Following the spec's error
  taxonomy, missing/empty environment variables (including the `KeyError`
  raised by `os.environ['TEAMCITY_BUILDCONF_NAME']`) become
  `Err.configurationError`, and `int()` / build-number parse failures become
  `Err.formatError`.
* Python's `int(...)` string parsing (optional surrounding whitespace, optional
  sign, nonempty ASCII digit run), `str(...)` integer rendering, and CPython's
  `ValueError` message for `int()` (which renders the offending string with
  `repr`, escaping special characters, after truncating it to 200 characters)
  are modelled for ASCII data.
* Writing a file is modelled by returning the `(file name, contents)` pair;
  `open(..., 'w')` truncates, so the pair denotes the file's entire contents
  after the call (overwriting any previous file with that name).
* Printing to stdout is modelled by returning the printed line on success. -/

/- Error taxonomy from the spec (section 7), carrying the Python message. -/
inductive Err where
  | configurationError (msg : String)
  | formatError (msg : String)
  deriving DecidableEq

/- The two environment variables read by the script; `none` models an absent
variable. -/
structure Env where
  build_number : Option String
  teamcity_buildconf_name : Option String

/- The working directory: file names with their full contents, in the order
the operating system enumerates them. -/
abbrev Dir : Type := List (String × String)

/- Characters stripped by Python's `int(str)` before parsing. -/
def isPySpace (c : Char) : Bool :=
  c = ' ' || c = '\t' || c = '\n' || c = '\r' || c = '\x0b' || c = '\x0c'

/- Numeric value of an ASCII digit character. -/
def charVal (c : Char) : Nat := c.toNat - 48

/- Value of a big-endian ASCII digit string. -/
def digitsVal (l : List Char) : Nat :=
  l.foldl (fun a c => 10 * a + charVal c) 0

/- Value of a little-endian ASCII digit string (proof-side companion of
`digitsVal`). -/
def digitsValRev : List Char → Nat
  | [] => 0
  | c :: cs => charVal c + 10 * digitsValRev cs

/- The sign-and-digits stage of Python `int(s)` for base 10 on ASCII data,
applied after whitespace stripping: one optional sign, then a nonempty run of
ASCII digits. -/
def pyIntCore : List Char → Option Int
  | [] => none
  | c :: rest =>
    if c = '-' then
      if !rest.isEmpty && rest.all Char.isDigit then
        some (-(digitsVal rest : Int))
      else none
    else if c = '+' then
      if !rest.isEmpty && rest.all Char.isDigit then
        some ((digitsVal rest : Int))
      else none
    else
      if (c :: rest).all Char.isDigit then
        some ((digitsVal (c :: rest) : Int))
      else none

/- Python `int(s)` for base 10 on ASCII data: strip whitespace on both sides,
then `pyIntCore`.  Returns `none` where Python raises `ValueError`. -/
def pyIntList (l : List Char) : Option Int :=
  pyIntCore (((l.dropWhile isPySpace).reverse.dropWhile isPySpace).reverse)

/- Little-endian decimal digits of a natural number, fuel-indexed so that the
recursion is structural (any `fuel > n` gives the true digit list). -/
def natNumeralRevFuel : Nat → Nat → List Char
  | 0, _ => []
  | fuel + 1, n =>
    if n < 10 then [Nat.digitChar n]
    else Nat.digitChar (n % 10) :: natNumeralRevFuel fuel (n / 10)

/- Little-endian decimal digits of a natural number. -/
def natNumeralRev (n : Nat) : List Char := natNumeralRevFuel (n + 1) n

/- Canonical decimal numeral of a natural number (no leading zeros; `0` is
rendered as "0"). -/
def natNumeral (n : Nat) : List Char := (natNumeralRev n).reverse

/- Python `str(n)` for an integer `n`. -/
def pyStrInt (n : Int) : List Char :=
  if n < 0 then '-' :: natNumeral n.natAbs else natNumeral n.toNat

/- One character of Python's `repr` of a string, given the chosen quote
character `q` (ASCII model). -/
def pyReprChar (q c : Char) : List Char :=
  if c = '\\' then ['\\', '\\']
  else if c = q then ['\\', q]
  else if c = '\n' then ['\\', 'n']
  else if c = '\r' then ['\\', 'r']
  else if c = '\t' then ['\\', 't']
  else if c.toNat < 32 || 127 ≤ c.toNat then
    '\\' :: 'x' :: [Nat.digitChar (c.toNat / 16 % 16), Nat.digitChar (c.toNat % 16)]
  else [c]

/- Python's `repr` of a string (ASCII model): single quotes, switching to
double quotes when the string contains a single quote but no double quote. -/
def pyRepr (s : List Char) : List Char :=
  let q : Char := if s.contains '\'' && !s.contains '"' then '"' else '\''
  q :: ((s.map (pyReprChar q)).flatten ++ [q])

/- CPython's `ValueError` message for a failed `int(s)`: the offending string
is truncated to 200 characters and rendered with `repr`. -/
def pyIntErrMsg (s : List Char) : List Char :=
  ("invalid literal for int() with base 10: ").toList ++ pyRepr (s.take 200)

/- Python `s.split('.')`: the resulting component list is never empty, and the
components carry no dot. -/
def splitDot : List Char → List (List Char)
  | [] => [[]]
  | c :: cs =>
    let r := splitDot cs
    if c = '.' then [] :: r
    else (c :: r.headD []) :: r.tail

/- Python `'.'.join(comps)`. -/
def joinDot : List (List Char) → List Char
  | [] => []
  | [c] => c
  | c :: rest => c ++ '.' :: joinDot rest

/- Python `re.sub('\d+\x24', repl, s)` (the pattern anchors at the end of the
string): replace the maximal trailing ASCII digit run (which may sit just
before one final newline, where the anchor also matches) with `repl`; if the
pattern does not match, return `s` unchanged. -/
def subDigitsEnd (repl s : List Char) : List Char :=
  let core := if s.getLast? = some '\n' then s.dropLast else s
  let nl := if s.getLast? = some '\n' then ['\n'] else []
  if (core.reverse.takeWhile Char.isDigit).isEmpty then s
  else (core.reverse.dropWhile Char.isDigit).reverse ++ repl ++ nl

/- `isStartOf pat l` holds when `pat` begins `l`. -/
def isStartOf : List Char → List Char → Bool
  | [], _ => true
  | _ :: _, [] => false
  | a :: as, b :: bs => a == b && isStartOf as bs

/- `isEndOf pat l` holds when `pat` ends `l`. -/
def isEndOf (pat l : List Char) : Bool := isStartOf pat.reverse l.reverse

/- `containsSeq pat l` holds when `pat` occurs contiguously inside `l`. -/
def containsSeq (pat : List Char) : List Char → Bool
  | [] => pat.isEmpty
  | c :: rest => isStartOf pat (c :: rest) || containsSeq pat rest

/- The glob pattern `vcsnumber*.txt` used by `glob.glob` (vcs_number.py:65):
`*` matches any (possibly empty) character sequence of a file name. -/
def matchesVcsGlob (name : String) : Bool :=
  isStartOf ("vcsnumber").toList name.toList && isEndOf (".txt").toList name.toList

/- A canonical decimal numeral: nonempty, ASCII digits only, and no leading
zero except for the single-digit numeral "0" itself. -/
def isCanonicalNumeral : List Char → Bool
  | [] => false
  | [c] => c.isDigit
  | c :: rest => c.isDigit && !(c == '0') && rest.all Char.isDigit

/- Embeds `get_teamcity_message` (vcs_number.py:45-46). -/
def get_teamcity_message (build_number : String) : String :=
  "##teamcity[buildNumber '" ++ build_number ++ "']"

/- Embeds `get_own_build_number` (vcs_number.py:58-62): reads `BUILD_NUMBER`
from the environment; `if not own_number` rejects both an absent variable and
the empty string. -/
def get_own_build_number (env : Env) : Except Err String :=
  match env.build_number with
  | none => .error (.configurationError "BUILD_NUMBER not set in environment variables")
  | some own_number =>
    if own_number = "" then
      .error (.configurationError "BUILD_NUMBER not set in environment variables")
    else .ok own_number

/- Embeds `get_vcs_number` (vcs_number.py:74-78):
`int(build_number.split('.')[-1])`, turning the `ValueError` into the script's
own message, which echoes the offending build-number string verbatim. -/
def get_vcs_number (build_number : String) : Except Err Int :=
  match pyIntList ((splitDot build_number.toList).getLastD []) with
  | some n => .ok n
  | none =>
    .error (.formatError ("Check the build number format in your TeamCity configuration. " ++
      build_number ++ " is not a valid build number, it needs to end with the vcs number."))

/- Embeds `get_branch_number` (vcs_number.py:80-81):
`'.'.join(build_number.split('.')[:-1])`. -/
def get_branch_number (build_number : String) : String :=
  String.mk (joinDot ((splitDot build_number.toList).dropLast))

/- Embeds `get_vcs_number_from_file` (vcs_number.py:70-72): `int(f.read())`.
The file read is modelled by passing the file's contents; a parse failure is
CPython's `ValueError` with its `invalid literal` message. -/
def get_vcs_number_from_file (contents : String) : Except Err Int :=
  match pyIntList contents.toList with
  | some n => .ok n
  | none => .error (.formatError (String.mk (pyIntErrMsg contents.toList)))

/- The list comprehension `[get_vcs_number_from_file(f) for f in files]`
(vcs_number.py:68): files are read left to right and the first failure
propagates. -/
def readDepFiles : Dir → Except Err (List Int)
  | [] => .ok []
  | f :: fs =>
    match get_vcs_number_from_file f.2 with
    | .error e => .error e
    | .ok v =>
      match readDepFiles fs with
      | .error e => .error e
      | .ok vs => .ok (v :: vs)

/- The `if not files: return 0 / return max([...])` part of
`get_largest_dependency_vcs_number` (vcs_number.py:66-68), applied to the
globbed file list: Python's `max` of a nonempty list is a left fold from the
first element. -/
def aggregateDepFiles : Dir → Except Err Int
  | [] => .ok 0
  | f :: fs =>
    match get_vcs_number_from_file f.2 with
    | .error e => .error e
    | .ok v =>
      match readDepFiles fs with
      | .error e => .error e
      | .ok vs => .ok (vs.foldl max v)

/- Embeds `get_largest_dependency_vcs_number` (vcs_number.py:64-68):
glob `vcsnumber*.txt` in the working directory, then aggregate. -/
def get_largest_dependency_vcs_number (dir : Dir) : Except Err Int :=
  aggregateDepFiles (dir.filter (fun f => matchesVcsGlob f.1))

/- Embeds `get_final_vcs_number` (vcs_number.py:53-56):
`max(get_vcs_number(get_own_build_number()), get_largest_dependency_vcs_number())`,
with Python's left-to-right argument evaluation. -/
def get_final_vcs_number (env : Env) (dir : Dir) : Except Err Int :=
  match get_own_build_number env with
  | .error e => .error e
  | .ok own =>
    match get_vcs_number own with
    | .error e => .error e
    | .ok ownVcs =>
      match get_largest_dependency_vcs_number dir with
      | .error e => .error e
      | .ok dep => .ok (max ownVcs dep)

/- Embeds `get_build_number` (vcs_number.py:48-51): substitute the final vcs
number (rendered with `str`) for the trailing digit run of the own build
number.  In the source the replacement argument is evaluated before
`get_own_build_number()`. -/
def get_build_number (env : Env) (dir : Dir) : Except Err String :=
  match get_final_vcs_number env dir with
  | .error e => .error e
  | .ok fin =>
    match get_own_build_number env with
    | .error e => .error e
    | .ok own => .ok (String.mk (subDigitsEnd (pyStrInt fin) own.toList))

/- Embeds `write_vcs_number_file` (vcs_number.py:83-87): read the
configuration name (`os.environ[...]` raises when absent, classified as a
configuration error), replace every space with an underscore, and write
`str(vcs_number)` as the entire contents of `vcsnumber_<name>.txt`. -/
def write_vcs_number_file (env : Env) (vcs_number : Int) : Except Err (String × String) :=
  match env.teamcity_buildconf_name with
  | none => .error (.configurationError "TEAMCITY_BUILDCONF_NAME")
  | some config_name =>
    let sanitized := String.mk (config_name.toList.map (fun c => if c = ' ' then '_' else c))
    .ok ("vcsnumber_" ++ sanitized ++ ".txt", String.mk (pyStrInt vcs_number))

/- Embeds `main` (vcs_number.py:40-43); named `script_main` because Lean
reserves `main` for executables.  On success the result carries the stdout
line, the written file's name, and the written file's contents. -/
def script_main (env : Env) (dir : Dir) : Except Err (String × String × String) :=
  match get_build_number env dir with
  | .error e => .error e
  | .ok build_number =>
    match get_vcs_number build_number with
    | .error e => .error e
    | .ok vcs =>
      match write_vcs_number_file env vcs with
      | .error e => .error e
      | .ok file => .ok (get_teamcity_message build_number, file.1, file.2)

/- ### Character-level facts -/

theorem char_toNat_inj {a b : Char} (h : a.toNat = b.toNat) : a = b := by
  have h2 := congrArg Char.ofNat h
  rwa [Char.ofNat_toNat, Char.ofNat_toNat] at h2

theorem isDigit_toNat {c : Char} (h : c.isDigit = true) : 48 ≤ c.toNat ∧ c.toNat ≤ 57 := by
  simpa [Char.isDigit] using h

theorem charVal_lt_ten {c : Char} (h : c.isDigit = true) : charVal c < 10 := by
  have h2 := isDigit_toNat h
  unfold charVal
  omega

theorem digitChar_charVal {c : Char} (h : c.isDigit = true) : Nat.digitChar (charVal c) = c := by
  obtain ⟨h1, h2⟩ := isDigit_toNat h
  apply char_toNat_inj
  unfold charVal
  generalize hk : c.toNat = k at h1 h2 ⊢
  interval_cases k <;> decide

theorem charVal_digitChar {k : Nat} (h : k < 10) : charVal (Nat.digitChar k) = k := by
  interval_cases k <;> decide

theorem digitChar_isDigit {k : Nat} (h : k < 10) : (Nat.digitChar k).isDigit = true := by
  interval_cases k <;> decide

theorem digitChar_ne_zero {k : Nat} (h1 : 1 ≤ k) (h2 : k < 10) : Nat.digitChar k ≠ '0' := by
  interval_cases k <;> decide

theorem isPySpace_of_isDigit {c : Char} (h : c.isDigit = true) : isPySpace c = false := by
  obtain ⟨h1, h2⟩ := isDigit_toNat h
  unfold isPySpace
  simp only [Bool.or_eq_false_iff, decide_eq_false_iff_not]
  refine ⟨⟨⟨⟨⟨?_, ?_⟩, ?_⟩, ?_⟩, ?_⟩, ?_⟩ <;> rintro rfl <;> revert h1 h2 <;> decide

theorem ne_of_isDigit {c x : Char} (h : c.isDigit = true) (hx : x.isDigit = false) : c ≠ x := by
  rintro rfl
  rw [h] at hx
  exact absurd hx (by decide)

theorem charVal_pos_of_ne_zero {c : Char} (h : c.isDigit = true) (h0 : c ≠ '0') :
    1 ≤ charVal c := by
  obtain ⟨h1, h2⟩ := isDigit_toNat h
  have h48 : c.toNat ≠ 48 := fun he => h0 (char_toNat_inj (by rw [he]; decide))
  unfold charVal
  omega

/- ### takeWhile / dropWhile helpers -/

theorem takeWhile_append_all {p : Char → Bool} {a : List Char} (h : ∀ c ∈ a, p c = true)
    (b : List Char) : (a ++ b).takeWhile p = a ++ b.takeWhile p := by
  induction a with
  | nil => simp
  | cons x xs ih =>
    have hx : p x = true := h x (List.mem_cons_self _ _)
    have hxs : ∀ c ∈ xs, p c = true := fun c hc => h c (List.mem_cons_of_mem _ hc)
    simp [List.takeWhile_cons, hx, ih hxs]

theorem dropWhile_append_all {p : Char → Bool} {a : List Char} (h : ∀ c ∈ a, p c = true)
    (b : List Char) : (a ++ b).dropWhile p = b.dropWhile p := by
  induction a with
  | nil => simp
  | cons x xs ih =>
    have hx : p x = true := h x (List.mem_cons_self _ _)
    have hxs : ∀ c ∈ xs, p c = true := fun c hc => h c (List.mem_cons_of_mem _ hc)
    simp [List.dropWhile_cons, hx, ih hxs]

theorem takeWhile_nil_of_head {p : Char → Bool} {b : List Char}
    (h : ∀ c, b.head? = some c → p c = false) : b.takeWhile p = [] := by
  cases b with
  | nil => rfl
  | cons x xs => simp [List.takeWhile_cons, h x rfl]

theorem dropWhile_self_of_head {p : Char → Bool} {b : List Char}
    (h : ∀ c, b.head? = some c → p c = false) : b.dropWhile p = b := by
  cases b with
  | nil => rfl
  | cons x xs => simp [List.dropWhile_cons, h x rfl]

/- ### splitDot / joinDot theory -/

theorem splitDot_cons_dot (cs : List Char) : splitDot ('.' :: cs) = [] :: splitDot cs := by
  simp [splitDot]

theorem splitDot_cons_ne {c : Char} (h : ¬ c = '.') (cs : List Char) :
    splitDot (c :: cs) = (c :: (splitDot cs).headD []) :: (splitDot cs).tail := by
  simp [splitDot, h]

theorem splitDot_shape (l : List Char) : ∃ h t, splitDot l = h :: t := by
  cases l with
  | nil => exact ⟨[], [], rfl⟩
  | cons c cs =>
    by_cases hc : c = '.'
    · subst hc
      exact ⟨_, _, splitDot_cons_dot cs⟩
    · exact ⟨_, _, splitDot_cons_ne hc cs⟩

theorem splitDot_nodot {l : List Char} : ∀ comp ∈ splitDot l, '.' ∉ comp := by
  induction l with
  | nil =>
    intro comp hc
    simp [splitDot] at hc
    simp [hc]
  | cons c cs ih =>
    intro comp hc
    by_cases hdot : c = '.'
    · subst hdot
      rw [splitDot_cons_dot] at hc
      rcases List.mem_cons.mp hc with rfl | hmem
      · simp
      · exact ih comp hmem
    · obtain ⟨h0, t0, hst⟩ := splitDot_shape cs
      rw [splitDot_cons_ne hdot, hst] at hc
      rcases List.mem_cons.mp hc with rfl | hmem
      · intro habs
        rcases List.mem_cons.mp habs with he | hmem2
        · exact hdot he.symm
        · exact ih h0 (by rw [hst]; exact List.mem_cons_self _ _) hmem2
      · exact ih comp (by rw [hst]; exact List.mem_cons_of_mem _ hmem)

theorem joinDot_cons_cons (a b : List Char) (t : List (List Char)) :
    joinDot (a :: b :: t) = a ++ '.' :: joinDot (b :: t) := rfl

theorem joinDot_splitDot (l : List Char) : joinDot (splitDot l) = l := by
  induction l with
  | nil => rfl
  | cons c cs ih =>
    obtain ⟨h0, t0, hst⟩ := splitDot_shape cs
    by_cases hdot : c = '.'
    · subst hdot
      rw [splitDot_cons_dot, hst, joinDot_cons_cons, ← hst, ih]
      rfl
    · rw [splitDot_cons_ne hdot, hst]
      rw [hst] at ih
      cases t0 with
      | nil =>
        have h2 : h0 = cs := by simpa [joinDot] using ih
        show joinDot [c :: h0] = c :: cs
        simp [joinDot, h2]
      | cons u us =>
        show joinDot ((c :: h0) :: u :: us) = c :: cs
        rw [joinDot_cons_cons] at ih
        rw [joinDot_cons_cons, List.cons_append, ih]

theorem splitDot_nodot_single {x : List Char} (h : '.' ∉ x) : splitDot x = [x] := by
  induction x with
  | nil => rfl
  | cons c xs ih =>
    have hc : ¬ c = '.' := fun e => h (e ▸ List.mem_cons_self _ _)
    have hxs : '.' ∉ xs := fun e => h (List.mem_cons_of_mem _ e)
    rw [splitDot_cons_ne hc, ih hxs]
    rfl

theorem splitDot_append_nodot {x : List Char} (h : '.' ∉ x) (m : List Char) :
    splitDot (x ++ m) = (x ++ (splitDot m).headD []) :: (splitDot m).tail := by
  induction x with
  | nil =>
    obtain ⟨h0, t0, hst⟩ := splitDot_shape m
    simp [hst]
  | cons c xs ih =>
    have hc : ¬ c = '.' := fun e => h (e ▸ List.mem_cons_self _ _)
    have hxs : '.' ∉ xs := fun e => h (List.mem_cons_of_mem _ e)
    rw [List.cons_append, splitDot_cons_ne hc, ih hxs]
    rfl

theorem splitDot_joinDot {comps : List (List Char)} (h1 : comps ≠ [])
    (h2 : ∀ comp ∈ comps, '.' ∉ comp) : splitDot (joinDot comps) = comps := by
  induction comps with
  | nil => exact absurd rfl h1
  | cons x rest ih =>
    cases rest with
    | nil => exact splitDot_nodot_single (h2 x (List.mem_cons_self _ _))
    | cons y us =>
      have hx : '.' ∉ x := h2 x (List.mem_cons_self _ _)
      have hrest : ∀ comp ∈ y :: us, '.' ∉ comp :=
        fun comp hc => h2 comp (List.mem_cons_of_mem _ hc)
      have hih := ih (by simp) hrest
      rw [joinDot_cons_cons, splitDot_append_nodot hx, splitDot_cons_dot, hih]
      simp

theorem joinDot_concat {cs : List (List Char)} (h : cs ≠ []) (lc : List Char) :
    joinDot (cs ++ [lc]) = joinDot cs ++ '.' :: lc := by
  induction cs with
  | nil => exact absurd rfl h
  | cons x rest ih =>
    cases rest with
    | nil => rfl
    | cons y us =>
      have ih2 := ih (by simp)
      show joinDot (x :: (y :: (us ++ [lc]))) = joinDot (x :: y :: us) ++ '.' :: lc
      rw [joinDot_cons_cons x y us, joinDot_cons_cons,
        show y :: (us ++ [lc]) = (y :: us) ++ [lc] from rfl, ih2]
      simp

/- ### Numeral rendering theory -/

theorem natNumeralRevFuel_eq {f1 f2 n : Nat} (h1 : n < f1) (h2 : n < f2) :
    natNumeralRevFuel f1 n = natNumeralRevFuel f2 n := by
  induction f1 generalizing f2 n with
  | zero => omega
  | succ f ih =>
    cases f2 with
    | zero => omega
    | succ g =>
      simp only [natNumeralRevFuel]
      split
      · rfl
      · next hn =>
        rw [ih (show n / 10 < f by omega) (show n / 10 < g by omega)]

theorem natNumeralRev_unfold (n : Nat) :
    natNumeralRev n =
      if n < 10 then [Nat.digitChar n]
      else Nat.digitChar (n % 10) :: natNumeralRev (n / 10) := by
  have h0 : natNumeralRev n =
      if n < 10 then [Nat.digitChar n]
      else Nat.digitChar (n % 10) :: natNumeralRevFuel n (n / 10) := rfl
  rw [h0]
  split
  · rfl
  · next hn =>
    exact congrArg (List.cons (Nat.digitChar (n % 10)))
      (natNumeralRevFuel_eq (show n / 10 < n by omega) (show n / 10 < n / 10 + 1 by omega))

theorem natNumeralRev_spec (n : Nat) :
    natNumeralRev n ≠ [] ∧ (∀ c ∈ natNumeralRev n, c.isDigit = true) ∧
      digitsValRev (natNumeralRev n) = n := by
  induction n using Nat.strong_induction_on with
  | _ n ih =>
    rw [natNumeralRev_unfold]
    split
    · next h =>
      refine ⟨by simp, ?_, ?_⟩
      · intro c hc
        simp only [List.mem_singleton] at hc
        subst hc
        exact digitChar_isDigit h
      · simp [digitsValRev, charVal_digitChar h]
    · next h =>
      obtain ⟨ih1, ih2, ih3⟩ := ih (n / 10) (by omega)
      refine ⟨by simp, ?_, ?_⟩
      · intro c hc
        rcases List.mem_cons.mp hc with rfl | hmem
        · exact digitChar_isDigit (show n % 10 < 10 by omega)
        · exact ih2 c hmem
      · simp only [digitsValRev, ih3, charVal_digitChar (show n % 10 < 10 by omega)]
        omega

theorem natNumeralRev_getLast_ne_zero {n : Nat} (h : 0 < n) :
    ∀ c, (natNumeralRev n).getLast? = some c → c ≠ '0' := by
  induction n using Nat.strong_induction_on with
  | _ n ih =>
    intro c hc
    rw [natNumeralRev_unfold] at hc
    split at hc
    · next h10 =>
      simp only [List.getLast?_singleton, Option.some.injEq] at hc
      subst hc
      exact digitChar_ne_zero (by omega) (by omega)
    · next h10 =>
      obtain ⟨x, xs, hxs⟩ : ∃ x xs, natNumeralRev (n / 10) = x :: xs := by
        obtain ⟨hne, -, -⟩ := natNumeralRev_spec (n / 10)
        cases he : natNumeralRev (n / 10) with
        | nil => exact absurd he hne
        | cons x xs => exact ⟨x, xs, rfl⟩
      rw [hxs, List.getLast?_cons_cons] at hc
      exact ih (n / 10) (by omega) (by omega) c (by rw [hxs]; exact hc)

theorem digitsValRev_pos {r : List Char} (hne : r ≠ [])
    (hd : ∀ c ∈ r, c.isDigit = true) (hz : ∀ c, r.getLast? = some c → c ≠ '0') :
    0 < digitsValRev r := by
  induction r with
  | nil => exact absurd rfl hne
  | cons c cs ih =>
    cases cs with
    | nil =>
      have h1 : 1 ≤ charVal c :=
        charVal_pos_of_ne_zero (hd c (List.mem_cons_self _ _)) (hz c rfl)
      simp only [digitsValRev]
      omega
    | cons d ds =>
      have hpos : 0 < digitsValRev (d :: ds) := by
        refine ih (by simp) (fun x hx => hd x (List.mem_cons_of_mem _ hx)) ?_
        intro x hx
        exact hz x (by rw [List.getLast?_cons_cons]; exact hx)
      have hstep : digitsValRev (c :: d :: ds) = charVal c + 10 * digitsValRev (d :: ds) := rfl
      rw [hstep]
      omega

theorem natNumeralRev_digitsValRev :
    ∀ r : List Char, r ≠ [] → (∀ c ∈ r, c.isDigit = true) →
      (r.getLast? = some '0' → r = ['0']) →
      natNumeralRev (digitsValRev r) = r := by
  intro r
  induction r with
  | nil => intro h; exact absurd rfl h
  | cons c cs ih =>
    intro _ hd hz
    cases cs with
    | nil =>
      have hc : c.isDigit = true := hd c (List.mem_cons_self _ _)
      have hval : digitsValRev [c] = charVal c := by simp [digitsValRev]
      rw [hval, natNumeralRev_unfold, if_pos (charVal_lt_ten hc), digitChar_charVal hc]
    | cons d ds =>
      have hlast0 : ∀ x, (d :: ds).getLast? = some x → x ≠ '0' := by
        intro x hx he
        subst he
        have := hz (by rw [List.getLast?_cons_cons]; exact hx)
        simp at this
      have hdtail : ∀ x ∈ d :: ds, x.isDigit = true :=
        fun x hx => hd x (List.mem_cons_of_mem _ hx)
      have hpos : 0 < digitsValRev (d :: ds) := digitsValRev_pos (by simp) hdtail hlast0
      have hcv : charVal c < 10 := charVal_lt_ten (hd c (List.mem_cons_self _ _))
      have hval : digitsValRev (c :: d :: ds) = charVal c + 10 * digitsValRev (d :: ds) := rfl
      rw [hval, natNumeralRev_unfold, if_neg (by omega)]
      have hmod : (charVal c + 10 * digitsValRev (d :: ds)) % 10 = charVal c := by omega
      have hdiv : (charVal c + 10 * digitsValRev (d :: ds)) / 10 = digitsValRev (d :: ds) := by
        omega
      rw [hmod, hdiv, digitChar_charVal (hd c (List.mem_cons_self _ _))]
      congr 1
      refine ih (by simp) hdtail ?_
      intro hx
      exact absurd rfl (hlast0 '0' hx)

theorem digitsVal_reverse (r : List Char) : digitsVal r.reverse = digitsValRev r := by
  induction r with
  | nil => rfl
  | cons c cs ih =>
    simp only [List.reverse_cons, digitsVal, List.foldl_append, List.foldl] at *
    rw [ih]
    simp only [digitsValRev]
    omega

theorem natNumeral_ne_nil (n : Nat) : natNumeral n ≠ [] := by
  unfold natNumeral
  obtain ⟨h1, -, -⟩ := natNumeralRev_spec n
  simpa using h1

theorem natNumeral_digits (n : Nat) : ∀ c ∈ natNumeral n, c.isDigit = true := by
  unfold natNumeral
  obtain ⟨-, h2, -⟩ := natNumeralRev_spec n
  intro c hc
  exact h2 c (List.mem_reverse.mp hc)

theorem digitsVal_natNumeral (n : Nat) : digitsVal (natNumeral n) = n := by
  unfold natNumeral
  obtain ⟨-, -, h3⟩ := natNumeralRev_spec n
  rw [digitsVal_reverse, h3]

theorem natNumeral_digitsVal {l : List Char} (h : isCanonicalNumeral l = true) :
    natNumeral (digitsVal l) = l := by
  have hrev : natNumeralRev (digitsValRev l.reverse) = l.reverse := by
    refine natNumeralRev_digitsValRev l.reverse ?_ ?_ ?_
    · cases l with
      | nil => simp [isCanonicalNumeral] at h
      | cons c cs => simp
    · intro c hc
      have hmem := List.mem_reverse.mp hc
      cases l with
      | nil => simp at hmem
      | cons x xs =>
        cases xs with
        | nil =>
          simp only [List.mem_singleton] at hmem
          subst hmem
          simpa [isCanonicalNumeral] using h
        | cons y ys =>
          simp only [isCanonicalNumeral, Bool.and_eq_true] at h
          rcases List.mem_cons.mp hmem with rfl | hmem2
          · exact h.1.1
          · exact List.all_eq_true.mp h.2 c hmem2
    · intro hlast
      rw [List.getLast?_reverse] at hlast
      cases l with
      | nil => simp [isCanonicalNumeral] at h
      | cons x xs =>
        simp only [List.head?_cons, Option.some.injEq] at hlast
        subst hlast
        cases xs with
        | nil => rfl
        | cons y ys =>
          simp [isCanonicalNumeral] at h
  have : digitsVal l = digitsValRev l.reverse := by
    rw [← digitsVal_reverse, List.reverse_reverse]
  rw [this]
  unfold natNumeral
  rw [hrev, List.reverse_reverse]

/- ### Parsing lemmas for pyIntList -/

theorem pyIntList_digits {l : List Char} (hne : l ≠ []) (hd : ∀ c ∈ l, c.isDigit = true) :
    pyIntList l = some ((digitsVal l : Int)) := by
  have hstrip1 : l.dropWhile isPySpace = l :=
    dropWhile_self_of_head (fun c hc =>
      isPySpace_of_isDigit (hd c (List.mem_of_mem_head? hc)))
  have hstrip2 : l.reverse.dropWhile isPySpace = l.reverse :=
    dropWhile_self_of_head (fun c hc =>
      isPySpace_of_isDigit (hd c (List.mem_reverse.mp (List.mem_of_mem_head? hc))))
  have hred : ((l.dropWhile isPySpace).reverse.dropWhile isPySpace).reverse = l := by
    rw [hstrip1, hstrip2, List.reverse_reverse]
  unfold pyIntList
  rw [hred]
  cases l with
  | nil => exact absurd rfl hne
  | cons c rest =>
    have hc : c.isDigit = true := hd c (List.mem_cons_self _ _)
    simp only [pyIntCore]
    rw [if_neg (ne_of_isDigit hc (by decide)), if_neg (ne_of_isDigit hc (by decide)),
      if_pos (List.all_eq_true.mpr hd)]

theorem pyIntList_pyStrInt (v : Int) : pyIntList (pyStrInt v) = some v := by
  unfold pyStrInt
  split
  · next hneg =>
    have hdig := natNumeral_digits v.natAbs
    have hne := natNumeral_ne_nil v.natAbs
    have hstrip1 : ('-' :: natNumeral v.natAbs).dropWhile isPySpace =
        '-' :: natNumeral v.natAbs := dropWhile_self_of_head (by
          intro c hc
          simp only [List.head?_cons, Option.some.injEq] at hc
          subst hc
          decide)
    have hstrip2 : ('-' :: natNumeral v.natAbs).reverse.dropWhile isPySpace =
        ('-' :: natNumeral v.natAbs).reverse := dropWhile_self_of_head (by
          intro c hc
          have hmem := List.mem_reverse.mp (List.mem_of_mem_head? hc)
          rcases List.mem_cons.mp hmem with rfl | hmem2
          · decide
          · exact isPySpace_of_isDigit (hdig c hmem2))
    have hred : ((('-' :: natNumeral v.natAbs).dropWhile isPySpace).reverse.dropWhile
        isPySpace).reverse = '-' :: natNumeral v.natAbs := by
      rw [hstrip1, hstrip2, List.reverse_reverse]
    unfold pyIntList
    rw [hred]
    simp only [pyIntCore]
    have hcond : (!(natNumeral v.natAbs).isEmpty && (natNumeral v.natAbs).all Char.isDigit)
        = true := by
      rw [Bool.and_eq_true]
      refine ⟨?_, List.all_eq_true.mpr hdig⟩
      cases he : natNumeral v.natAbs with
      | nil => exact absurd he hne
      | cons x xs => rfl
    rw [if_pos trivial, if_pos hcond, digitsVal_natNumeral]
    congr 1
    omega
  · next hpos =>
    rw [pyIntList_digits (natNumeral_ne_nil _) (natNumeral_digits _), digitsVal_natNumeral]
    congr 1
    omega

/- ### The trailing-digit-run substitution -/

theorem subDigitsEnd_append {p t repl : List Char} (hne : t ≠ [])
    (hd : ∀ c ∈ t, c.isDigit = true)
    (hp : ∀ c, p.getLast? = some c → c.isDigit = false) :
    subDigitsEnd repl (p ++ t) = p ++ repl := by
  obtain ⟨te, hte⟩ : ∃ te, t.getLast? = some te := by
    cases ht : t.getLast? with
    | none => exact absurd (List.getLast?_eq_none_iff.mp ht) hne
    | some x => exact ⟨x, rfl⟩
  have htemem : te ∈ t := by
    have h2 := List.dropLast_append_getLast? te hte
    rw [← h2]
    simp
  have hted : te.isDigit = true := hd te htemem
  have hlast : (p ++ t).getLast? = some te := by
    rw [List.getLast?_append_of_ne_nil _ hne, hte]
  have hnotnl : ¬ (p ++ t).getLast? = some '\n' := by
    rw [hlast]
    intro hcon
    have : te = '\n' := by injection hcon
    subst this
    exact absurd hted (by decide)
  have hrevall : ∀ c ∈ t.reverse, Char.isDigit c = true :=
    fun c hc => hd c (List.mem_reverse.mp hc)
  have hrevp : ∀ c, p.reverse.head? = some c → Char.isDigit c = false := by
    intro c hc
    rw [List.head?_reverse] at hc
    exact hp c hc
  have htake : (p ++ t).reverse.takeWhile Char.isDigit = t.reverse := by
    rw [List.reverse_append, takeWhile_append_all hrevall, takeWhile_nil_of_head hrevp,
      List.append_nil]
  have hdrop : (p ++ t).reverse.dropWhile Char.isDigit = p.reverse := by
    rw [List.reverse_append, dropWhile_append_all hrevall, dropWhile_self_of_head hrevp]
  unfold subDigitsEnd
  simp only [if_neg hnotnl]
  rw [htake, hdrop]
  rw [if_neg (by simpa using hne), List.reverse_reverse, List.append_nil]

theorem sub_joinDot {cs : List (List Char)} {lc : List Char} (r : List Char) (hne : lc ≠ [])
    (hd : ∀ c ∈ lc, c.isDigit = true) :
    subDigitsEnd r (joinDot (cs ++ [lc])) = joinDot (cs ++ [r]) := by
  cases hcs : cs with
  | nil =>
    have h1 : subDigitsEnd r ([] ++ lc) = [] ++ r :=
      subDigitsEnd_append hne hd (by intro c hc; simp at hc)
    simpa [joinDot] using h1
  | cons x xs =>
    rw [joinDot_concat (by simp) lc, joinDot_concat (by simp) r,
      show (joinDot (x :: xs) ++ '.' :: lc) = (joinDot (x :: xs) ++ ['.']) ++ lc by
        rw [List.append_assoc]; rfl,
      show (joinDot (x :: xs) ++ '.' :: r) = (joinDot (x :: xs) ++ ['.']) ++ r by
        rw [List.append_assoc]; rfl]
    refine subDigitsEnd_append hne hd ?_
    intro c hc
    rw [List.getLast?_concat] at hc
    injection hc with hcc
    subst hcc
    decide

theorem getLastComp_joinDot {cs : List (List Char)} {r : List Char}
    (hcs : ∀ l ∈ cs, '.' ∉ l) (hr : '.' ∉ r) :
    (splitDot (joinDot (cs ++ [r]))).getLastD [] = r := by
  rw [splitDot_joinDot (by simp) (by
    intro comp hc
    rcases List.mem_append.mp hc with hm | hm
    · exact hcs comp hm
    · simp only [List.mem_singleton] at hm
      subst hm
      exact hr)]
  rw [List.getLastD_concat]

/- ### Maximum of a nonempty list via foldl -/

theorem foldl_max_mem (v : Int) (vs : List Int) : vs.foldl max v ∈ v :: vs := by
  induction vs generalizing v with
  | nil => simp
  | cons w ws ih =>
    rw [List.foldl_cons]
    rcases List.mem_cons.mp (ih (max v w)) with h | h
    · rcases max_choice v w with e | e <;> rw [h, e] <;> simp
    · simp [List.mem_cons_of_mem, h]

theorem le_foldl_max (v : Int) (vs : List Int) : ∀ x ∈ v :: vs, x ≤ vs.foldl max v := by
  induction vs generalizing v with
  | nil =>
    intro x hx
    simp only [List.mem_singleton] at hx
    subst hx
    exact le_refl x
  | cons w ws ih =>
    intro x hx
    rw [List.foldl_cons]
    rcases List.mem_cons.mp hx with rfl | hx2
    · exact le_trans (le_max_left x w) (ih (max x w) _ (List.mem_cons_self _ _))
    · rcases List.mem_cons.mp hx2 with rfl | hx3
      · exact le_trans (le_max_right v x) (ih (max v x) _ (List.mem_cons_self _ _))
      · exact ih (max v w) x (List.mem_cons_of_mem _ hx3)

/- ### Reading dependency files -/

theorem readDepFiles_ok {fs : Dir} {vs : List Int}
    (h : fs.map (fun f => pyIntList f.2.toList) = vs.map some) :
    readDepFiles fs = .ok vs := by
  induction fs generalizing vs with
  | nil =>
    cases vs with
    | nil => rfl
    | cons v vs2 => simp at h
  | cons f fs2 ih =>
    cases vs with
    | nil => simp at h
    | cons v vs2 =>
      simp only [List.map_cons, List.cons.injEq] at h
      have hf : get_vcs_number_from_file f.2 = .ok v := by
        unfold get_vcs_number_from_file
        rw [h.1]
      simp only [readDepFiles, hf, ih h.2]

theorem readDepFiles_error (pre : Dir) (nm c : String) (post : Dir)
    (hpre : ∀ f ∈ pre, (pyIntList f.2.toList).isSome = true)
    (hbad : pyIntList c.toList = none) :
    readDepFiles (pre ++ (nm, c) :: post) =
      .error (.formatError (String.mk (pyIntErrMsg c.toList))) := by
  induction pre with
  | nil =>
    simp only [List.nil_append, readDepFiles]
    unfold get_vcs_number_from_file
    rw [hbad]
  | cons f fs ih =>
    obtain ⟨w, hw⟩ := Option.isSome_iff_exists.mp (hpre f (List.mem_cons_self _ _))
    have hf : get_vcs_number_from_file f.2 = .ok w := by
      unfold get_vcs_number_from_file
      rw [hw]
    have hihres := ih (fun g hg => hpre g (List.mem_cons_of_mem _ hg))
    simp only [List.cons_append, readDepFiles, hf, List.append_eq, hihres]

theorem get_largest_ok {dir : Dir} {v : Int} {vs : List Int}
    (h : (dir.filter fun f => matchesVcsGlob f.1).map (fun f => pyIntList f.2.toList)
      = (v :: vs).map some) :
    get_largest_dependency_vcs_number dir = .ok (vs.foldl max v) := by
  unfold get_largest_dependency_vcs_number
  cases hf : dir.filter fun f => matchesVcsGlob f.1 with
  | nil => rw [hf] at h; simp at h
  | cons g gs =>
    rw [hf] at h
    simp only [List.map_cons, List.cons.injEq] at h
    have hg : get_vcs_number_from_file g.2 = .ok v := by
      unfold get_vcs_number_from_file
      rw [h.1]
    simp only [aggregateDepFiles, hg, readDepFiles_ok h.2]

theorem map_filterMap_of_isSome {α β : Type} (g : α → Option β) (l : List α)
    (h : ∀ x ∈ l, (g x).isSome = true) : l.map g = (l.filterMap g).map some := by
  induction l with
  | nil => rfl
  | cons x xs ih =>
    obtain ⟨w, hw⟩ := Option.isSome_iff_exists.mp (h x (List.mem_cons_self _ _))
    rw [List.map_cons, List.filterMap_cons_some hw, List.map_cons, hw,
      ih (fun y hy => h y (List.mem_cons_of_mem _ hy))]

/- ### Substring search -/

theorem isStartOf_append_self (pat suffix : List Char) :
    isStartOf pat (pat ++ suffix) = true := by
  induction pat with
  | nil => rfl
  | cons c cs ih => simp [isStartOf, ih]

theorem containsSeq_append (lead pat trail : List Char) :
    containsSeq pat (lead ++ pat ++ trail) = true := by
  induction lead with
  | nil =>
    simp only [List.nil_append]
    cases hp : pat ++ trail with
    | nil =>
      have hpat : pat = [] := by
        cases pat with
        | nil => rfl
        | cons x xs => simp at hp
      rw [hpat]
      rfl
    | cons c cs =>
      simp only [containsSeq]
      rw [← hp, isStartOf_append_self]
      rfl
  | cons c cs ih =>
    simp only [List.cons_append, containsSeq, List.append_eq, ih, Bool.or_true]

/- ### Canonical numerals and pyStrInt -/

theorem canonical_ne_nil {l : List Char} (h : isCanonicalNumeral l = true) : l ≠ [] := by
  cases l with
  | nil => simp [isCanonicalNumeral] at h
  | cons c cs => simp

theorem canonical_digits {l : List Char} (h : isCanonicalNumeral l = true) :
    ∀ c ∈ l, c.isDigit = true := by
  cases l with
  | nil => simp [isCanonicalNumeral] at h
  | cons x xs =>
    cases xs with
    | nil =>
      intro c hc
      simp only [List.mem_singleton] at hc
      subst hc
      simpa [isCanonicalNumeral] using h
    | cons y ys =>
      simp only [isCanonicalNumeral, Bool.and_eq_true] at h
      intro c hc
      rcases List.mem_cons.mp hc with rfl | hc2
      · exact h.1.1
      · exact List.all_eq_true.mp h.2 c hc2

theorem nodot_of_digits {l : List Char} (h : ∀ c ∈ l, c.isDigit = true) : '.' ∉ l := by
  intro hmem
  exact absurd (h '.' hmem) (by decide)

theorem pyStrInt_ofNat (n : Nat) : pyStrInt (n : Int) = natNumeral n := by
  unfold pyStrInt
  rw [if_neg (by omega)]
  congr 1

theorem pyStrInt_ne_nil (v : Int) : pyStrInt v ≠ [] := by
  unfold pyStrInt
  split
  · simp
  · exact natNumeral_ne_nil _

theorem pyStrInt_nodot (v : Int) : '.' ∉ pyStrInt v := by
  unfold pyStrInt
  split
  · intro hmem
    rcases List.mem_cons.mp hmem with he | hmem2
    · exact absurd he (by decide)
    · exact absurd (natNumeral_digits _ '.' hmem2) (by decide)
  · exact nodot_of_digits (natNumeral_digits _)

/- ### Extracting the vcs number from a freshly joined build number -/

theorem string_mk_toList (l : List Char) : (String.mk l).toList = l := rfl

theorem get_vcs_number_joinDot {cs : List (List Char)} {r : List Char} {m : Int}
    (hcs : ∀ l ∈ cs, '.' ∉ l) (hr : '.' ∉ r) (hpy : pyIntList r = some m) :
    get_vcs_number (String.mk (joinDot (cs ++ [r]))) = .ok m := by
  unfold get_vcs_number
  rw [string_mk_toList, getLastComp_joinDot hcs hr, hpy]

/- ### Aggregator failure -/

theorem get_largest_err {dir : Dir} {pre : Dir} {nm c : String} {post : Dir}
    (hsplit : dir.filter (fun f => matchesVcsGlob f.1) = pre ++ (nm, c) :: post)
    (hpre : ∀ f ∈ pre, (pyIntList f.2.toList).isSome = true)
    (hbad : pyIntList c.toList = none) :
    get_largest_dependency_vcs_number dir =
      .error (.formatError (String.mk (pyIntErrMsg c.toList))) := by
  unfold get_largest_dependency_vcs_number
  rw [hsplit]
  cases pre with
  | nil =>
    have hc : get_vcs_number_from_file c = .error (.formatError (String.mk (pyIntErrMsg
        c.toList))) := by
      unfold get_vcs_number_from_file
      rw [hbad]
    simp only [List.nil_append, aggregateDepFiles, hc]
  | cons f fs =>
    obtain ⟨w, hw⟩ := Option.isSome_iff_exists.mp (hpre f (List.mem_cons_self _ _))
    have hf : get_vcs_number_from_file f.2 = .ok w := by
      unfold get_vcs_number_from_file
      rw [hw]
    have herr := readDepFiles_error fs nm c post
      (fun g hg => hpre g (List.mem_cons_of_mem _ hg)) hbad
    simp only [List.cons_append, aggregateDepFiles, hf, List.append_eq, herr]

theorem containsSeq_of_decomp (lead trail : List Char) {pat l : List Char}
    (h : l = lead ++ pat ++ trail) : containsSeq pat l = true := by
  rw [h]
  exact containsSeq_append lead pat trail

/- ### The claims -/

/-- Claim C1: whenever `BUILD_NUMBER` holds a valid build-number string with vcs
number `v` and the working directory aggregates to `d`, `get_final_vcs_number`
returns exactly `max v d`, in all three cases: own strictly greater, own
strictly smaller, and equal (on a tie the own value is used, which is the same
value). -/
theorem vcs_c1 (env : Env) (dir : Dir) (B : String) (v d : Int)
    (h1 : get_own_build_number env = .ok B)
    (h2 : get_vcs_number B = .ok v)
    (h3 : get_largest_dependency_vcs_number dir = .ok d) :
    get_final_vcs_number env dir = .ok (max v d) ∧
    (d < v → get_final_vcs_number env dir = .ok v) ∧
    (v < d → get_final_vcs_number env dir = .ok d) ∧
    (v = d → get_final_vcs_number env dir = .ok v) := by
  have hmain : get_final_vcs_number env dir = .ok (max v d) := by
    simp only [get_final_vcs_number, h1, h2, h3]
  refine ⟨hmain, ?_, ?_, ?_⟩
  · intro h
    rw [hmain, max_eq_left (le_of_lt h)]
  · intro h
    rw [hmain, max_eq_right (le_of_lt h)]
  · intro h
    subst h
    rw [hmain, max_self]

theorem vcs_c1_witness :
    get_final_vcs_number ⟨some "7.3.0.1337", none⟩ [("vcsnumber_dep1.txt", "2000")]
      = .ok 2000 ∧
    get_final_vcs_number ⟨some "7.3.0.9999", none⟩ [("vcsnumber_dep1.txt", "2000")]
      = .ok 9999 ∧
    get_final_vcs_number ⟨some "7.3.0.2000", none⟩ [("vcsnumber_dep1.txt", "2000")]
      = .ok 2000 := by
  refine ⟨?_, ?_, ?_⟩
  · exact (vcs_c1 ⟨some "7.3.0.1337", none⟩ [("vcsnumber_dep1.txt", "2000")] "7.3.0.1337"
      1337 2000 rfl rfl rfl).2.2.1 (by omega)
  · exact (vcs_c1 ⟨some "7.3.0.9999", none⟩ [("vcsnumber_dep1.txt", "2000")] "7.3.0.9999"
      9999 2000 rfl rfl rfl).2.1 (by omega)
  · exact (vcs_c1 ⟨some "7.3.0.2000", none⟩ [("vcsnumber_dep1.txt", "2000")] "7.3.0.2000"
      2000 2000 rfl rfl rfl).2.2.2 rfl

/-- Claim C3: for every string decomposing as an arbitrary prefix (ending in a
non-digit or empty) followed by a nonempty trailing digit run, substituting a
non-negative integer `n` (as `get_build_number` does with `re.sub` of the
trailing digit run) replaces exactly that run with the decimal form of `n` and
leaves the prefix — embedded dots and earlier digits included —
character-for-character unchanged. -/
theorem vcs_c3 (s pfx run : List Char) (n : Nat)
    (hdecomp : s = pfx ++ run) (hne : run ≠ [])
    (hd : ∀ c ∈ run, c.isDigit = true)
    (hp : ∀ c, pfx.getLast? = some c → c.isDigit = false) :
    subDigitsEnd (pyStrInt (n : Int)) s = pfx ++ pyStrInt (n : Int) := by
  subst hdecomp
  exact subDigitsEnd_append hne hd hp

theorem vcs_c3_witness :
    subDigitsEnd (pyStrInt ((42 : Nat) : Int)) ("ver7.1x.3.0.1337" : String).toList =
      ("ver7.1x.3.0." : String).toList ++ pyStrInt ((42 : Nat) : Int) :=
  vcs_c3 ("ver7.1x.3.0.1337" : String).toList ("ver7.1x.3.0." : String).toList
    ['1', '3', '3', '7'] 42 (by decide) (by decide) (by decide) (by decide)

/-- Claim C5: when the last dot-separated component of a build-number string is
empty or not parseable as an integer, `get_vcs_number` fails with a
`FormatError` whose message contains the offending build-number string verbatim
and the instruction to check the TeamCity build-number format. -/
theorem vcs_c5 (B : String)
    (h : (splitDot B.toList).getLastD [] = [] ∨
      pyIntList ((splitDot B.toList).getLastD []) = none) :
    ∃ msg : String,
      get_vcs_number B = .error (.formatError msg) ∧
      msg = "Check the build number format in your TeamCity configuration. " ++ B ++
        " is not a valid build number, it needs to end with the vcs number." ∧
      containsSeq B.toList msg.toList = true ∧
      containsSeq ("Check the build number format in your TeamCity configuration. " :
        String).toList msg.toList = true := by
  have hnone : pyIntList ((splitDot B.toList).getLastD []) = none := by
    rcases h with h1 | h2
    · rw [h1]
      rfl
    · exact h2
  refine ⟨_, ?_, rfl, ?_, ?_⟩
  · unfold get_vcs_number
    rw [hnone]
  · refine containsSeq_of_decomp
      ("Check the build number format in your TeamCity configuration. " : String).toList
      (" is not a valid build number, it needs to end with the vcs number." : String).toList ?_
    simp [String.toList]
  · refine containsSeq_of_decomp []
      ((B ++ " is not a valid build number, it needs to end with the vcs number.") :
        String).toList ?_
    simp [String.toList]

theorem vcs_c5_witness :
    ∃ msg : String,
      get_vcs_number "7.3.0." = .error (.formatError msg) ∧
      msg = "Check the build number format in your TeamCity configuration. " ++ "7.3.0." ++
        " is not a valid build number, it needs to end with the vcs number." ∧
      containsSeq ("7.3.0." : String).toList msg.toList = true ∧
      containsSeq ("Check the build number format in your TeamCity configuration. " :
        String).toList msg.toList = true :=
  vcs_c5 "7.3.0." (Or.inl (by decide))

/-- Claim C6: `get_own_build_number` fails with the `ConfigurationError`
"BUILD_NUMBER not set in environment variables" exactly when the
`BUILD_NUMBER` environment variable is absent or empty, and otherwise returns
the variable's string value unchanged. -/
theorem vcs_c6 (env : Env) :
    ((env.build_number = none ∨ env.build_number = some "") ↔
      get_own_build_number env =
        .error (.configurationError "BUILD_NUMBER not set in environment variables")) ∧
    (∀ s, env.build_number = some s → s ≠ "" → get_own_build_number env = .ok s) := by
  obtain ⟨b, tname⟩ := env
  cases b with
  | none =>
    exact ⟨⟨fun _ => rfl, fun _ => Or.inl rfl⟩, fun s hb => absurd hb (by simp)⟩
  | some s =>
    by_cases hs : s = ""
    · subst hs
      refine ⟨⟨fun _ => rfl, fun _ => Or.inr rfl⟩, fun s2 hb hs2 => ?_⟩
      have h2 : s2 = "" := (Option.some.inj hb).symm
      exact absurd h2 hs2
    · refine ⟨⟨fun h => ?_, fun herr => ?_⟩, fun s2 hb hs2 => ?_⟩
      · rcases h with h | h
        · exact absurd h (by simp)
        · exact absurd (Option.some.inj h) hs
      · have h2 : (if s = "" then
            (Except.error (Err.configurationError
              "BUILD_NUMBER not set in environment variables") : Except Err String)
            else Except.ok s) =
            Except.error (Err.configurationError
              "BUILD_NUMBER not set in environment variables") := herr
        rw [if_neg hs] at h2
        exact absurd h2 (fun hcon => Except.noConfusion hcon)
      · have hss : s = s2 := Option.some.inj hb
        subst hss
        show (if s = "" then
            (Except.error (Err.configurationError
              "BUILD_NUMBER not set in environment variables") : Except Err String)
            else Except.ok s) = Except.ok s
        rw [if_neg hs]

theorem vcs_c6_witness :
    get_own_build_number ⟨some "", none⟩ =
      .error (.configurationError "BUILD_NUMBER not set in environment variables") ∧
    get_own_build_number ⟨none, none⟩ =
      .error (.configurationError "BUILD_NUMBER not set in environment variables") ∧
    get_own_build_number ⟨some "7.3.0.1337", none⟩ = .ok "7.3.0.1337" :=
  ⟨(vcs_c6 ⟨some "", none⟩).1.mp (Or.inr rfl),
   (vcs_c6 ⟨none, none⟩).1.mp (Or.inl rfl),
   (vcs_c6 ⟨some "7.3.0.1337", none⟩).2 "7.3.0.1337" rfl (by decide)⟩

/-- Claim C8: `write_vcs_number_file` writes exactly the decimal text of its
integer argument as the full contents of `vcsnumber_<name>.txt`, where
`<name>` is the configuration-name environment variable with every space
replaced by an underscore, and fails with a `ConfigurationError` when that
variable is absent. -/
theorem vcs_c8 (env : Env) (n : Int) :
    (env.teamcity_buildconf_name = none →
      write_vcs_number_file env n = .error (.configurationError "TEAMCITY_BUILDCONF_NAME")) ∧
    (∀ cname, env.teamcity_buildconf_name = some cname →
      write_vcs_number_file env n =
        .ok ("vcsnumber_" ++
          String.mk (cname.toList.map (fun c => if c = ' ' then '_' else c)) ++ ".txt",
          String.mk (pyStrInt n))) := by
  constructor
  · intro h
    unfold write_vcs_number_file
    rw [h]
  · intro cname h
    unfold write_vcs_number_file
    rw [h]

theorem vcs_c8_witness :
    write_vcs_number_file ⟨none, some "RulesEngine - static"⟩ 1337 =
      .ok ("vcsnumber_RulesEngine_-_static.txt", "1337") ∧
    write_vcs_number_file ⟨none, none⟩ 1337 =
      .error (.configurationError "TEAMCITY_BUILDCONF_NAME") := by
  constructor
  · exact ((vcs_c8 ⟨none, some "RulesEngine - static"⟩ 1337).2 "RulesEngine - static"
      rfl).trans (by rfl)
  · exact (vcs_c8 ⟨none, none⟩ 1337).1 rfl

/-- Claim C10: `get_vcs_number` does not reject every non-digit trailing
component: a signed last component such as "-5" or a whitespace-padded one
such as " 42" parses through Python's `int` and is returned — possibly
negative — instead of raising a `FormatError`, so non-negativity of the vcs
number is not enforced here. -/
theorem vcs_c10 :
    get_vcs_number "7.3.0.-5" = .ok (-5) ∧
    get_vcs_number "7.3.0. 42" = .ok 42 ∧
    (-5 : Int) < 0 ∧
    ("-5" : String).toList.all Char.isDigit = false ∧
    (" 42" : String).toList.all Char.isDigit = false := by
  exact ⟨rfl, rfl, by omega, by decide, by decide⟩

/-- Claim C2: for every valid build-number string `B` — the dot-join of one or
more components, each the canonical decimal numeral of a non-negative
integer — with vcs number `v` (value of the last component) and branch number
`p` (dot-join of the others): `get_branch_number B = p`, `get_vcs_number B`
returns `v`, and re-injecting `v` into `B` with the trailing-digit-run
substitution used by `get_build_number` yields `B` unchanged. -/
theorem vcs_c2 (comps : List (List Char)) (B p : String) (v : Int)
    (hne : comps ≠ [])
    (hcanon : ∀ c ∈ comps, isCanonicalNumeral c = true)
    (hB : B = String.mk (joinDot comps))
    (hv : v = (digitsVal (comps.getLastD []) : Int))
    (hp : p = String.mk (joinDot comps.dropLast)) :
    get_branch_number B = p ∧ get_vcs_number B = .ok v ∧
      String.mk (subDigitsEnd (pyStrInt v) B.toList) = B := by
  subst hB hv hp
  obtain ⟨cs, lc, hdecomp⟩ : ∃ cs lc, comps = cs ++ [lc] :=
    ⟨comps.dropLast, comps.getLast hne, (List.dropLast_append_getLast hne).symm⟩
  subst hdecomp
  have hnodot : ∀ comp ∈ cs ++ [lc], '.' ∉ comp :=
    fun comp hc => nodot_of_digits (canonical_digits (hcanon comp hc))
  have hlcc : isCanonicalNumeral lc = true := hcanon lc (by simp)
  have hsplit : splitDot (String.mk (joinDot (cs ++ [lc]))).toList = cs ++ [lc] := by
    rw [string_mk_toList]
    exact splitDot_joinDot hne hnodot
  refine ⟨?_, ?_, ?_⟩
  · unfold get_branch_number
    rw [hsplit]
  · unfold get_vcs_number
    rw [hsplit, List.getLastD_concat,
      pyIntList_digits (canonical_ne_nil hlcc) (canonical_digits hlcc)]
  · rw [string_mk_toList, List.getLastD_concat, pyStrInt_ofNat,
      sub_joinDot (natNumeral (digitsVal lc)) (canonical_ne_nil hlcc) (canonical_digits hlcc),
      natNumeral_digitsVal hlcc]

theorem vcs_c2_witness :
    get_branch_number "7.3.0.1337" = "7.3.0" ∧ get_vcs_number "7.3.0.1337" = .ok 1337 ∧
      String.mk (subDigitsEnd (pyStrInt 1337) ("7.3.0.1337" : String).toList) = "7.3.0.1337" :=
  vcs_c2 [['7'], ['3'], ['0'], ['1', '3', '3', '7']] "7.3.0.1337" "7.3.0" 1337
    (by decide) (by decide) (by decide) (by decide) (by decide)

theorem get_largest_of_all_some {dir : Dir}
    (hne : dir.filter (fun f => matchesVcsGlob f.1) ≠ [])
    (hsome : ∀ f ∈ dir.filter (fun f => matchesVcsGlob f.1),
      (pyIntList f.2.toList).isSome = true) :
    ∃ m, get_largest_dependency_vcs_number dir = .ok m ∧
      m ∈ (dir.filter (fun f => matchesVcsGlob f.1)).filterMap
        (fun f => pyIntList f.2.toList) ∧
      ∀ x ∈ (dir.filter (fun f => matchesVcsGlob f.1)).filterMap
        (fun f => pyIntList f.2.toList), x ≤ m := by
  have hmap := map_filterMap_of_isSome (fun f : String × String => pyIntList f.2.toList)
    (dir.filter fun f => matchesVcsGlob f.1) hsome
  cases hv : (dir.filter (fun f => matchesVcsGlob f.1)).filterMap
      (fun f => pyIntList f.2.toList) with
  | nil =>
    rw [hv] at hmap
    cases hf : dir.filter (fun f => matchesVcsGlob f.1) with
    | nil => exact absurd hf hne
    | cons g gs =>
      rw [hf] at hmap
      simp at hmap
  | cons w ws =>
    rw [hv] at hmap
    exact ⟨ws.foldl max w, get_largest_ok hmap, foldl_max_mem w ws, le_foldl_max w ws⟩

/-- Claim C4: `get_largest_dependency_vcs_number` returns 0 when no file
matches `vcsnumber*.txt`; returns the single file's integer content when
exactly one matches; returns the maximum of all parsed contents when several
match; and the result does not depend on the enumeration order of the
files. -/
theorem vcs_c4 (dir dir2 : Dir) :
    (dir.filter (fun f => matchesVcsGlob f.1) = [] →
      get_largest_dependency_vcs_number dir = .ok 0) ∧
    (∀ nm c v, dir.filter (fun f => matchesVcsGlob f.1) = [(nm, c)] →
      pyIntList c.toList = some v →
      get_largest_dependency_vcs_number dir = .ok v) ∧
    (∀ v vs, (dir.filter (fun f => matchesVcsGlob f.1)).map (fun f => pyIntList f.2.toList)
        = (v :: vs).map some →
      get_largest_dependency_vcs_number dir = .ok (vs.foldl max v) ∧
      vs.foldl max v ∈ v :: vs ∧ (∀ x ∈ v :: vs, x ≤ vs.foldl max v)) ∧
    (dir.Perm dir2 →
      (∀ f ∈ dir.filter (fun f => matchesVcsGlob f.1), (pyIntList f.2.toList).isSome = true) →
      get_largest_dependency_vcs_number dir = get_largest_dependency_vcs_number dir2) := by
  refine ⟨?_, ?_, ?_, ?_⟩
  · intro h
    unfold get_largest_dependency_vcs_number
    rw [h]
    rfl
  · intro nm c v hf hpv
    have hpv2 : pyIntList c.data = some v := hpv
    have hmap : (dir.filter fun f => matchesVcsGlob f.1).map (fun f => pyIntList f.2.toList)
        = [v].map some := by
      rw [hf]
      simp [hpv, hpv2]
    simpa using get_largest_ok hmap
  · intro v vs hmap
    exact ⟨get_largest_ok hmap, foldl_max_mem v vs, le_foldl_max v vs⟩
  · intro hperm hsome
    have hfp : (dir.filter fun f => matchesVcsGlob f.1).Perm
        (dir2.filter fun f => matchesVcsGlob f.1) := hperm.filter _
    have hsome2 : ∀ f ∈ dir2.filter (fun f => matchesVcsGlob f.1),
        (pyIntList f.2.toList).isSome = true :=
      fun f hf => hsome f (hfp.mem_iff.mpr hf)
    by_cases hne1 : dir.filter (fun f => matchesVcsGlob f.1) = []
    · have hne2 : dir2.filter (fun f => matchesVcsGlob f.1) = [] := by
        rw [hne1] at hfp
        exact hfp.symm.eq_nil
      unfold get_largest_dependency_vcs_number
      rw [hne1, hne2]
    · have hne2 : dir2.filter (fun f => matchesVcsGlob f.1) ≠ [] := by
        intro h
        rw [h] at hfp
        exact hne1 hfp.eq_nil
      obtain ⟨m1, hr1, hm1, hub1⟩ := get_largest_of_all_some hne1 hsome
      obtain ⟨m2, hr2, hm2, hub2⟩ := get_largest_of_all_some hne2 hsome2
      have hpv : ((dir.filter fun f => matchesVcsGlob f.1).filterMap
          (fun f => pyIntList f.2.toList)).Perm
          ((dir2.filter fun f => matchesVcsGlob f.1).filterMap
            (fun f => pyIntList f.2.toList)) := hfp.filterMap _
      have he : m1 = m2 :=
        le_antisymm (hub2 m1 (hpv.mem_iff.mp hm1)) (hub1 m2 (hpv.mem_iff.mpr hm2))
      rw [hr1, hr2, he]

theorem vcs_c4_witness :
    get_largest_dependency_vcs_number [("readme.md", "junk")] = .ok 0 ∧
    get_largest_dependency_vcs_number [("vcsnumber_dep1.txt", "1000")] = .ok 1000 ∧
    get_largest_dependency_vcs_number
      [("vcsnumber_dep1.txt", "1000"), ("vcsnumber_dep2.txt", "3000"),
        ("vcsnumber_dep3.txt", "2000")] = .ok 3000 ∧
    get_largest_dependency_vcs_number
      [("vcsnumber_dep1.txt", "1000"), ("vcsnumber_dep2.txt", "3000")] =
      get_largest_dependency_vcs_number
        [("vcsnumber_dep2.txt", "3000"), ("vcsnumber_dep1.txt", "1000")] := by
  refine ⟨?_, ?_, ?_, ?_⟩
  · exact (vcs_c4 [("readme.md", "junk")] []).1 rfl
  · exact (vcs_c4 [("vcsnumber_dep1.txt", "1000")] []).2.1 "vcsnumber_dep1.txt" "1000"
      1000 rfl rfl
  · exact ((vcs_c4 [("vcsnumber_dep1.txt", "1000"), ("vcsnumber_dep2.txt", "3000"),
      ("vcsnumber_dep3.txt", "2000")] []).2.2.1 1000 [3000, 2000] rfl).1
  · exact (vcs_c4 [("vcsnumber_dep1.txt", "1000"), ("vcsnumber_dep2.txt", "3000")]
      [("vcsnumber_dep2.txt", "3000"), ("vcsnumber_dep1.txt", "1000")]).2.2.2
      (List.Perm.swap _ _ _) (by decide)

/-- Claim C7 counterexample: a dependency file whose contents need
`repr`-escaping ("a\nb") makes `get_largest_dependency_vcs_number` fail with a
`FormatError` whose message does not contain the offending literal file
contents — the message holds the escaped rendering 'a\nb' instead, so the
claim as stated is false at this input even though the file matches the glob
and is unparseable. -/
theorem vcs_c7_counterexample :
    (∃ msg : String,
      get_largest_dependency_vcs_number [("vcsnumber_dep1.txt", "a\nb")] =
        .error (.formatError msg) ∧
      containsSeq ("a\nb" : String).toList msg.toList = false) ∧
    matchesVcsGlob "vcsnumber_dep1.txt" = true ∧
    pyIntList ("a\nb" : String).toList = none := by
  refine ⟨⟨String.mk (pyIntErrMsg ("a\nb" : String).toList), rfl, by decide⟩, by decide, rfl⟩

/-- Claim C7 (amended): whenever some file matching `vcsnumber*.txt` has
contents not parseable as an integer, `get_largest_dependency_vcs_number`
fails with a `FormatError` (never returns a value); the message embeds the
first offending file's contents in Python's `repr` rendering — verbatim
exactly when the contents need no escaping. -/
theorem vcs_c7 (dir : Dir) (pre : Dir) (nm c : String) (post : Dir)
    (hsplit : dir.filter (fun f => matchesVcsGlob f.1) = pre ++ (nm, c) :: post)
    (hpre : ∀ f ∈ pre, (pyIntList f.2.toList).isSome = true)
    (hbad : pyIntList c.toList = none) :
    get_largest_dependency_vcs_number dir =
      .error (.formatError (String.mk (pyIntErrMsg c.toList))) ∧
    ∀ v, get_largest_dependency_vcs_number dir ≠ .ok v := by
  have h := get_largest_err hsplit hpre hbad
  refine ⟨h, fun v hv => ?_⟩
  rw [h] at hv
  exact Except.noConfusion hv

theorem vcs_c7_witness :
    get_largest_dependency_vcs_number
      [("vcsnumber_a.txt", "12"), ("vcsnumber_b.txt", "abc")] =
      .error (.formatError (String.mk (pyIntErrMsg ("abc" : String).toList))) ∧
    containsSeq ("abc" : String).toList (pyIntErrMsg ("abc" : String).toList) = true :=
  ⟨(vcs_c7 [("vcsnumber_a.txt", "12"), ("vcsnumber_b.txt", "abc")]
      [("vcsnumber_a.txt", "12")] "vcsnumber_b.txt" "abc" [] rfl (by decide) rfl).1,
   by decide⟩

/-- Claim C9: for every build-number string whose last dot-separated component
is a nonempty digit run, extracting the vcs number from the result of
injecting any `n : Nat` recovers exactly `n`; consequently, when
`script_main` succeeds the persisted file contents are exactly the decimal
text of `get_final_vcs_number`, and extracting from them gives that value
back. -/
theorem vcs_c9 (B : String) (cs : List (List Char)) (lc : List Char)
    (hsplit : splitDot B.toList = cs ++ [lc]) (hne : lc ≠ [])
    (hd : ∀ c ∈ lc, c.isDigit = true) :
    (∀ n : Nat,
      get_vcs_number (String.mk (subDigitsEnd (pyStrInt (n : Int)) B.toList))
        = .ok (n : Int)) ∧
    (∀ env dir v out, get_own_build_number env = .ok B →
      get_final_vcs_number env dir = .ok v →
      script_main env dir = .ok out →
      out.2.2 = String.mk (pyStrInt v) ∧ get_vcs_number out.2.2 = .ok v) := by
  have hB : B.toList = joinDot (cs ++ [lc]) := by
    have h0 := joinDot_splitDot B.toList
    rw [hsplit] at h0
    exact h0.symm
  have hcs : ∀ l ∈ cs, '.' ∉ l := by
    intro l hl
    exact splitDot_nodot l (by rw [hsplit]; exact List.mem_append.mpr (Or.inl hl))
  have hsub : ∀ r : List Char, '.' ∉ r → ∀ m : Int, pyIntList r = some m →
      get_vcs_number (String.mk (subDigitsEnd r B.toList)) = .ok m := by
    intro r hr m hm
    rw [hB, sub_joinDot r hne hd]
    exact get_vcs_number_joinDot hcs hr hm
  have hval : ∀ v : Int, get_vcs_number (String.mk (pyStrInt v)) = .ok v := by
    intro v
    have h0 : ∀ l ∈ ([] : List (List Char)), '.' ∉ l := by simp
    have h1 := get_vcs_number_joinDot h0 (pyStrInt_nodot v) (pyIntList_pyStrInt v)
    simpa [joinDot] using h1
  constructor
  · intro n
    exact hsub (pyStrInt (n : Int)) (pyStrInt_nodot _) (n : Int) (pyIntList_pyStrInt _)
  · intro env dir v out hown hfin hmain
    have hbn : get_build_number env dir =
        .ok (String.mk (subDigitsEnd (pyStrInt v) B.toList)) := by
      unfold get_build_number
      rw [hfin, hown]
    have hextract : get_vcs_number (String.mk (subDigitsEnd (pyStrInt v) B.toList)) = .ok v :=
      hsub (pyStrInt v) (pyStrInt_nodot v) v (pyIntList_pyStrInt v)
    cases hwr : write_vcs_number_file env v with
    | error e =>
      simp only [script_main, hbn, hextract, hwr] at hmain
      exact Except.noConfusion hmain
    | ok file =>
      simp only [script_main, hbn, hextract, hwr, Except.ok.injEq] at hmain
      have hfile : file.2 = String.mk (pyStrInt v) := by
        cases hname : env.teamcity_buildconf_name with
        | none =>
          simp only [write_vcs_number_file, hname] at hwr
          exact Except.noConfusion hwr
        | some cname =>
          simp only [write_vcs_number_file, hname, Except.ok.injEq] at hwr
          rw [← hwr]
      rw [← hmain]
      refine ⟨hfile, ?_⟩
      show get_vcs_number file.2 = .ok v
      rw [hfile]
      exact hval v

theorem vcs_c9_witness :
    get_vcs_number (String.mk (subDigitsEnd (pyStrInt ((42 : Nat) : Int))
      ("7.3.0.1337" : String).toList)) = .ok ((42 : Nat) : Int) ∧
    script_main ⟨some "7.3.0.1337", some "Dep 1"⟩ [] =
      .ok ("##teamcity[buildNumber '7.3.0.1337']", "vcsnumber_Dep_1.txt", "1337") ∧
    ("##teamcity[buildNumber '7.3.0.1337']", "vcsnumber_Dep_1.txt", "1337").2.2 =
      String.mk (pyStrInt 1337) := by
  have h := vcs_c9 "7.3.0.1337" [['7'], ['3'], ['0']] ['1', '3', '3', '7']
    (by decide) (by decide) (by decide)
  refine ⟨h.1 42, rfl, ?_⟩
  exact (h.2 ⟨some "7.3.0.1337", some "Dep 1"⟩ [] 1337
    ("##teamcity[buildNumber '7.3.0.1337']", "vcsnumber_Dep_1.txt", "1337")
    rfl rfl rfl).1
